import Mathlib

/-!
Shallow embedding of the Dixa SLA export pipeline, from
`export_dixa_refresh.py` and `export_dixa_prev_month_exports.py`.

Timestamps arriving from the bulk export endpoint are millisecond epoch
integers, modelled as `Option ℤ` (`none` = field absent).  `map_row`
serializes them to ISO strings with whole-second precision (`_ms_to_iso`
uses `strftime` without a fractional part, which truncates); a serialized
timestamp is therefore modelled as a rational number of seconds
(`Option ℚ`), with `msToSec` performing the floor division by 1000.
Detail-endpoint timestamps are ISO strings of arbitrary precision, hence
arbitrary rationals.
-/

namespace Dixa

/-- Second truncation performed by `_ms_to_iso`: a millisecond epoch value is
formatted with `strftime("%Y-%m-%dT%H:%M:%SZ")`, dropping the sub-second part,
i.e. flooring to whole seconds. -/
def msToSec (ms : ℤ) : ℚ := ((ms.fdiv 1000 : ℤ) : ℚ)

/-- Python `str.lower()` / pandas `.str.lower()` on the ASCII strings handled
here, defined on the character list so that it evaluates in the kernel. -/
def pyLower (s : String) : String := String.mk (s.data.map Char.toLower)

/-- A raw record from the bulk export endpoint (snake_case keys, millisecond
epoch timestamps), as consumed by `map_row`. -/
structure RawRec where
  id : Option String := none
  initial_channel : Option String := none
  direction : Option String := none
  created_at : Option ℤ := none
  queued_at : Option ℤ := none
  assigned_at : Option ℤ := none
  closed_at : Option ℤ := none
  assignee_name : Option String := none
  queue_name : Option String := none
deriving DecidableEq

/-- A normalized row as produced by `map_row` (the claim-relevant fields), with
the slots that the in-place detail enrichment of `main` may later fill
(`assignment.reason`, `assignment.assignedAt`, an overriding `answeredAt`). -/
structure Row where
  id : Option String
  createdAt : Option ℚ
  queuedAt : Option ℚ
  answeredAt : Option ℚ
  closedAt : Option ℚ
  direction : String
  channel : String
  assignmentReason : Option String
  assignmentAssignedAt : Option ℚ
  AnsweredWithin1Min : Bool
  TakenFromQueue : Bool
  TakenFromForward : Bool
  RejectedOrForwarded : Bool
deriving DecidableEq

/-- `map_row` from `export_dixa_refresh.py`: normalizes one bulk-export record
and computes the first round of metric booleans (later overwritten by
`compute_columns` on the final DataFrame). -/
def map_row (rec : RawRec) : Row :=
  let ans1m : Bool :=
    rec.created_at.isSome && rec.assigned_at.isSome &&
      decide (rec.assigned_at.getD 0 - rec.created_at.getD 0 ≤ 60000)
  let tf : Bool := rec.queued_at.isNone && rec.assigned_at.isSome
  { id := rec.id
    createdAt := rec.created_at.map msToSec
    queuedAt := rec.queued_at.map msToSec
    answeredAt := rec.assigned_at.map msToSec
    closedAt := rec.closed_at.map msToSec
    direction := rec.direction.getD ""
    channel := pyLower (rec.initial_channel.getD "")
    assignmentReason := none
    assignmentAssignedAt := none
    AnsweredWithin1Min := ans1m
    TakenFromQueue := rec.queued_at.isSome && rec.assigned_at.isSome
    TakenFromForward := tf
    RejectedOrForwarded := rec.assigned_at.isNone || tf }

/-- The claim-relevant fields of a `/v1/conversations/{id}` detail payload. -/
structure Detail where
  answeredAt : Option ℚ := none
  reason : Option String := none
  assignedAt : Option ℚ := none
deriving DecidableEq

/-- The in-place enrichment performed in `main` for one row once a detail
payload was obtained: `answeredAt` is overridden only when the detail value is
truthy, while `assignment.assignedAt` and `assignment.reason` are written from
the detail payload unconditionally. -/
def applyDetail (r : Row) (det : Detail) : Row :=
  { r with
    answeredAt := match det.answeredAt with
      | some a => some a
      | none => r.answeredAt
    assignmentAssignedAt := det.assignedAt
    assignmentReason := det.reason }

/-- Enrichment step for one row in `main`: skipped when the conversation id is
falsy (`if not conv_id: continue`) or when the detail lookup produced nothing
(`if not det: continue`). -/
def enrichRow (r : Row) (det : Option Detail) : Row :=
  match r.id, det with
  | none, _ => r
  | _, none => r
  | some s, some d => if s = "" then r else applyDetail r d

/-- A row of the final export after `compute_columns` (the claim-relevant
columns). -/
structure FinalRow where
  id : Option String
  createdAt : Option ℚ
  queuedAt : Option ℚ
  answeredAt : Option ℚ
  closedAt : Option ℚ
  channel : String
  assignmentReason : Option String
  AnsweredWithin1Min : Bool
  TakenFromQueue : Bool
  TakenFromForward : Bool
  RejectedOrForwarded : Bool
  CallType : String
deriving DecidableEq

/-- Row-level semantics of `compute_columns` from `export_dixa_refresh.py`
(the DataFrame computation is element-wise):
`AnsweredWithin1Min` is recomputed from the parsed `answeredAt`/`createdAt`
columns with `fillna(False)`; `TakenFromQueue`/`TakenFromForward` are
overwritten from the lowercased assignment reason (missing reason ↦ `""`);
`RejectedOrForwarded` is `answered.isna() | reason ∈ {"forward","rejected"}`;
`CallType` starts as `"direct"` and is masked to `"queue"`/`"forward"` by the
same reason comparisons. -/
def compute_columns_row (r : Row) : FinalRow :=
  let within1m : Bool := match r.answeredAt, r.createdAt with
    | some a, some c => decide (a - c ≤ 60)
    | _, _ => false
  let rl : String := pyLower (r.assignmentReason.getD "")
  { id := r.id
    createdAt := r.createdAt
    queuedAt := r.queuedAt
    answeredAt := r.answeredAt
    closedAt := r.closedAt
    channel := r.channel
    assignmentReason := r.assignmentReason
    AnsweredWithin1Min := within1m
    TakenFromQueue := rl == "queue"
    TakenFromForward := rl == "forward"
    RejectedOrForwarded := r.answeredAt.isNone || (rl == "forward" || rl == "rejected")
    CallType := if rl == "queue" then "queue"
      else if rl == "forward" then "forward" else "direct" }

/-- `df.drop_duplicates(subset=["id"])`: keep the first row seen for each id
value, in stable input order. -/
def dedupByIdAux (seen : List (Option String)) : List Row → List Row
  | [] => []
  | r :: rest =>
    if r.id ∈ seen then dedupByIdAux seen rest
    else r :: dedupByIdAux (r.id :: seen) rest

/-- Deduplication of the accumulated result set in `main`. -/
def dedupById (l : List Row) : List Row := dedupByIdAux [] l

/-- The duplicate count reported by `main`: `before - len(df)`. -/
def dedupRemoved (l : List Row) : ℕ := l.length - (dedupById l).length

/-- The single-file pipeline of `main` in `export_dixa_refresh.py`: map each
raw record with `map_row`, apply the optional channel filter, enrich each row
with its (possibly absent) detail payload, accumulate across windows,
deduplicate by id, then compute the final columns. -/
def finalExport (channel : String) (inputs : List (RawRec × Option Detail)) :
    List FinalRow :=
  let mapped := inputs.map (fun p => (map_row p.1, p.2))
  let filtered := if channel = "" then mapped
    else mapped.filter (fun p => p.1.channel == pyLower channel)
  let enriched := filtered.map (fun p => enrichRow p.1 p.2)
  (dedupById enriched).map compute_columns_row

/-- The loop body of `date_windows`: while `cur ≤ end_d`, emit the window
`(cur, min end_d (cur + step - 1))` and continue from the day after its end.
Dates are modelled as integer day numbers.  For `step ≤ 0` the Python loop
does not terminate; the embedding returns `[]` on that never-claimed branch. -/
def date_windows_go (end_d step : ℤ) (cur : ℤ) : List (ℤ × ℤ) :=
  if h : cur ≤ end_d then
    if hs : 1 ≤ step then
      (cur, min end_d (cur + step - 1)) ::
        date_windows_go end_d step (min end_d (cur + step - 1) + 1)
    else []
  else []
termination_by (end_d + 1 - cur).toNat
decreasing_by
  simp_wf
  omega

/-- `date_windows` from `export_dixa_refresh.py`. -/
def date_windows (start_d end_d step : ℤ) : List (ℤ × ℤ) :=
  date_windows_go end_d step start_d

/-- One observed response of the bulk export endpoint, as consumed by
`fetch_exports_window`:
`ok body` is an HTTP 200 whose JSON parse yields `body` (`none` = malformed);
`rate ra` is an HTTP 429 whose `Retry-After` header is absent (`none`),
present but unparseable (`some none`), or a parsed value (`some (some v)`);
`server`/`client` are 5xx / other non-200 statuses; `exc` is a
connection/timeout exception raised by `requests.get`. -/
inductive ExResp (α : Type) where
  | ok (body : Option (List α))
  | rate (retryAfter : Option (Option ℚ))
  | server (code : ℕ)
  | client (code : ℕ)
  | exc
deriving DecidableEq

/-- Outcome of `fetch_exports_window`, with the trace of `time.sleep` delays:
`success` is a 200 return, `abandoned` is a `return []` after exhausted
retries or a non-retryable status, `connError` is an uncaught exception
propagating to the caller, `noResponse` marks exhaustion of the modelled
response list (never reached in the claims below). -/
inductive FetchResult (α : Type) where
  | success (sleeps : List ℚ) (records : List α)
  | abandoned (sleeps : List ℚ)
  | connError (sleeps : List ℚ)
  | noResponse (sleeps : List ℚ)
deriving DecidableEq

/-- The value returned to the caller of `fetch_exports_window`: `abandoned`
paths `return []`, while `connError` returns nothing (the exception
propagates). -/
def FetchResult.returned {α : Type} : FetchResult α → Option (List α)
  | .success _ rs => some rs
  | .abandoned _ => some []
  | .connError _ => none
  | .noResponse _ => none

/-- The `while True` loop of `fetch_exports_window`, carrying the current
`delay`, the `tries` counter and the (reversed) list of performed sleeps.
On 429 the wait is the parsed `Retry-After` if available, else the current
delay, floored at `BASE_DELAY` (`base`); the sleep happens before the attempt
counter is checked, and the delay grows by the factor 3/2 capped at 60.
On 5xx the current delay is slept and left unchanged.  Any other non-200
status returns `[]` immediately; an exception propagates. -/
def fetch_go {α : Type} (base : ℚ) (max_retries : ℕ) :
    List (ExResp α) → ℚ → ℕ → List ℚ → FetchResult α
  | [], _, _, sleeps => .noResponse sleeps.reverse
  | resp :: rest, delay, tries, sleeps =>
    match resp with
    | .ok body => .success sleeps.reverse (body.getD [])
    | .rate ra =>
      let wait : ℚ := match ra with
        | some (some v) => v
        | _ => delay
      let wait2 := max wait base
      let tries2 := tries + 1
      let delay2 := min (delay * (3 / 2)) 60
      if max_retries ≤ tries2 then .abandoned (wait2 :: sleeps).reverse
      else fetch_go base max_retries rest delay2 tries2 (wait2 :: sleeps)
    | .server _ =>
      let tries2 := tries + 1
      if max_retries ≤ tries2 then .abandoned (delay :: sleeps).reverse
      else fetch_go base max_retries rest delay tries2 (delay :: sleeps)
    | .client _ => .abandoned sleeps.reverse
    | .exc => .connError sleeps.reverse

/-- `fetch_exports_window` from `export_dixa_refresh.py`, as a function of the
sequence of responses the endpoint produces (`delay` starts at `BASE_DELAY`,
`tries` at 0). -/
def fetch_exports_window {α : Type} (base : ℚ) (max_retries : ℕ)
    (responses : List (ExResp α)) : FetchResult α :=
  fetch_go base max_retries responses base 0 []

/-- Closed form of the sleeps performed by a run of consecutive 429 responses
without a usable `Retry-After`, starting from a given current delay. -/
def backoffSleeps (base : ℚ) : ℕ → ℚ → List ℚ
  | 0, _ => []
  | k + 1, delay => max delay base :: backoffSleeps base k (min (delay * (3 / 2)) 60)

/-- One observed response of the per-record detail endpoint: a status with the
parse result of its body (`none` = JSON decoding raised, `some d` = the
`data` field, itself optional), or an exception from `requests.get`. -/
inductive DetailOutcome where
  | resp (status : ℕ) (body : Option (Option Detail))
  | exc
deriving DecidableEq

/-- `fetch_detail` from `export_dixa_refresh.py` (the prev-month exporter has
the identical body): `None` on any exception or non-200 status; on 200 the
`data` field of the parsed body, `None` when parsing fails or the field is
absent.  Total by construction: it never propagates an error. -/
def fetch_detail : DetailOutcome → Option Detail
  | .exc => none
  | .resp status body => if status = 200 then body.getD none else none

end Dixa

namespace PrevMonth

/-- Metric tuple returned by `calculate_metrics_from_ms` in
`export_dixa_prev_month_exports.py`. -/
structure Metrics where
  answered_within_1min : Bool
  rejected_or_forwarded : Bool
  taken_from_queue : Bool
  taken_from_forward : Bool
  assignment_reason : Option String
deriving DecidableEq

/-- Python truthiness of an optional integer millisecond timestamp, as tested
by `if created_at_ms and assigned_at_ms`: both `None` and `0` are falsy. -/
def truthyMs : Option ℤ → Bool
  | none => false
  | some v => v != 0

/-- `calculate_metrics_from_ms` from `export_dixa_prev_month_exports.py`:
the 1-minute flag guards presence by truthiness, the queue/forward flags by
`is not None`. -/
def calculate_metrics_from_ms (created_at_ms assigned_at_ms queued_at_ms : Option ℤ) :
    Metrics :=
  let taken_from_queue : Bool := queued_at_ms.isSome && assigned_at_ms.isSome
  let taken_from_forward : Bool := queued_at_ms.isNone && assigned_at_ms.isSome
  { answered_within_1min :=
      truthyMs created_at_ms && truthyMs assigned_at_ms &&
        decide (assigned_at_ms.getD 0 - created_at_ms.getD 0 ≤ 60000)
    rejected_or_forwarded := assigned_at_ms.isNone
    taken_from_queue := taken_from_queue
    taken_from_forward := taken_from_forward
    assignment_reason :=
      if taken_from_queue then some "queue"
      else if taken_from_forward then some "forward"
      else none }

end PrevMonth

namespace Dixa

/-- Unenriched record whose `answered - created` is exactly 60001 ms. -/
def c1Raw : RawRec := { id := some "1", created_at := some 0, assigned_at := some 60001 }

/-- Unenriched record answered within 30 s. -/
def c1wRaw : RawRec := { id := some "w1", created_at := some 0, assigned_at := some 30000 }

/-- The final-export row produced from `c1wRaw`. -/
def c1wFr : FinalRow := compute_columns_row (enrichRow (map_row c1wRaw) none)

/-- Unenriched record with both `queued_at` and `assigned_at` present. -/
def c2Raw : RawRec :=
  { id := some "2", created_at := some 0, queued_at := some 1000, assigned_at := some 2000 }

/-- Unenriched record with `queued_at` absent and `assigned_at` present. -/
def c2wRaw : RawRec := { id := some "w2", created_at := some 0, assigned_at := some 2000 }

/-- The final-export row produced from `c2wRaw`. -/
def c2wFr : FinalRow := compute_columns_row (enrichRow (map_row c2wRaw) none)

/-- Answered record later enriched with assignment reason `"rejected"`. -/
def c3Raw : RawRec := { id := some "3", created_at := some 0, assigned_at := some 5000 }

/-- Detail payload carrying assignment reason `"rejected"`. -/
def c3Det : Detail := { reason := some "rejected" }

/-- Unanswered record for the C3 witness. -/
def c3wRaw : RawRec := { id := some "w3", created_at := some 0 }

/-- The final-export row produced from `c3wRaw`. -/
def c3wFr : FinalRow := compute_columns_row (enrichRow (map_row c3wRaw) none)

/-- Answered record later enriched with mixed-case assignment reason `"Queue"`. -/
def c4Raw : RawRec := { id := some "4", created_at := some 0, assigned_at := some 5000 }

/-- Detail payload carrying assignment reason `"Queue"`. -/
def c4Det : Detail := { reason := some "Queue" }

/-- The final-export row produced from `c4Raw` enriched with `c4Det`. -/
def c4wFr : FinalRow := compute_columns_row (enrichRow (map_row c4Raw) (some c4Det))

/-- Two rows with distinct ids, for the C7 witness. -/
def c7RowA : Row := map_row { id := some "a", created_at := some 0 }

/-- Second row for the C7 witness. -/
def c7RowB : Row := map_row { id := some "b", created_at := some 1000 }

lemma ccr_answeredAt (r : Row) : (compute_columns_row r).answeredAt = r.answeredAt := rfl

lemma ccr_createdAt (r : Row) : (compute_columns_row r).createdAt = r.createdAt := rfl

lemma ccr_assignmentReason (r : Row) :
    (compute_columns_row r).assignmentReason = r.assignmentReason := rfl

lemma ccr_AnsweredWithin1Min (r : Row) :
    (compute_columns_row r).AnsweredWithin1Min =
      match r.answeredAt, r.createdAt with
      | some a, some c => decide (a - c ≤ 60)
      | _, _ => false := rfl

lemma ccr_CallType (r : Row) :
    (compute_columns_row r).CallType =
      (if pyLower (r.assignmentReason.getD "") == "queue" then "queue"
       else if pyLower (r.assignmentReason.getD "") == "forward" then "forward"
       else "direct") := rfl

lemma enrichRow_none (r : Row) : enrichRow r none = r := by
  rcases r with ⟨id, _, _, _, _, _, _, _, _, _, _, _, _⟩
  cases id <;> rfl

lemma mem_finalExport {ch : String} {inputs : List (RawRec × Option Detail)} {fr : FinalRow}
    (h : fr ∈ finalExport ch inputs) : ∃ r : Row, fr = compute_columns_row r := by
  simp only [finalExport, List.mem_map] at h
  obtain ⟨r, _, hr⟩ := h
  exact ⟨r, hr.symm⟩

lemma finalExport_singleton (rec : RawRec) (det : Option Detail) :
    finalExport "" [(rec, det)] = [compute_columns_row (enrichRow (map_row rec) det)] := by
  simp [finalExport, dedupById, dedupByIdAux]

/-- Claim C1 (amended): in the final export `AnsweredWithin1Min` is true exactly
when both serialized timestamps are present and their difference is at most
60 seconds; for an unenriched record the serialized timestamps are the
millisecond values floored to whole seconds, so the flag equals
`⌊answered/1000⌋ - ⌊created/1000⌋ ≤ 60` (60000 ms ↦ true, 60001 ms ↦ true or
false depending on sub-second alignment, a missing timestamp ↦ false). -/
theorem c1_answered_within_final :
    (∀ (ch : String) (inputs : List (RawRec × Option Detail)) (fr : FinalRow),
      fr ∈ finalExport ch inputs →
      (fr.AnsweredWithin1Min = true ↔
        ∃ a c : ℚ, fr.answeredAt = some a ∧ fr.createdAt = some c ∧ a - c ≤ 60)) ∧
    (∀ rec : RawRec,
      (finalExport "" [(rec, none)]).map FinalRow.AnsweredWithin1Min =
        [rec.created_at.isSome && rec.assigned_at.isSome &&
          decide ((rec.assigned_at.getD 0).fdiv 1000 - (rec.created_at.getD 0).fdiv 1000 ≤ 60)]) := by
  constructor
  · intro ch inputs fr hfr
    obtain ⟨r, rfl⟩ := mem_finalExport hfr
    rw [ccr_AnsweredWithin1Min, ccr_answeredAt, ccr_createdAt]
    rcases ha : r.answeredAt with _ | a <;> rcases hc : r.createdAt with _ | c <;> simp
  · intro rec
    rw [finalExport_singleton, enrichRow_none]
    rcases ha : rec.assigned_at with _ | a <;> rcases hc : rec.created_at with _ | c <;>
      simp [map_row, ccr_AnsweredWithin1Min, ha, hc, msToSec]
    constructor <;> intro h <;> exact_mod_cast h

/-- Claim C1 counterexample: the record `c1Raw` has
`answered - created = 60001 ms` yet its final-export `AnsweredWithin1Min` is
true, because both timestamps serialize to whole seconds (0 s and 60 s). -/
theorem c1_counterexample :
    (finalExport "" [(c1Raw, none)]).map FinalRow.AnsweredWithin1Min = [true] := by
  simp [finalExport, map_row, compute_columns_row, enrichRow, dedupById, dedupByIdAux,
    msToSec, c1Raw]

/-- Witness for C1: the amended statement applied to a concrete export. -/
theorem c1_witness :
    (c1wFr ∈ finalExport "" [(c1wRaw, none)]) ∧
    (c1wFr.AnsweredWithin1Min = true ↔
      ∃ a c : ℚ, c1wFr.answeredAt = some a ∧ c1wFr.createdAt = some c ∧ a - c ≤ 60) :=
  ⟨by rw [finalExport_singleton]; exact List.mem_singleton.mpr rfl,
   c1_answered_within_final.1 "" [(c1wRaw, none)] c1wFr
     (by rw [finalExport_singleton]; exact List.mem_singleton.mpr rfl)⟩

/-- Claim C2 (amended): in the final export `TakenFromQueue` and
`TakenFromForward` are determined by the lowercased assignment reason
(`"queue"` / `"forward"`, empty when no enrichment supplied one), not by
timestamp presence; the presence-based definitions hold only for the
intermediate columns computed by `map_row`, which `compute_columns`
overwrites. -/
theorem c2_taken_from_reason :
    (∀ (ch : String) (inputs : List (RawRec × Option Detail)) (fr : FinalRow),
      fr ∈ finalExport ch inputs →
      fr.TakenFromQueue = (pyLower (fr.assignmentReason.getD "") == "queue") ∧
      fr.TakenFromForward = (pyLower (fr.assignmentReason.getD "") == "forward")) ∧
    (∀ rec : RawRec,
      (map_row rec).TakenFromQueue = (rec.queued_at.isSome && rec.assigned_at.isSome) ∧
      (map_row rec).TakenFromForward = (rec.queued_at.isNone && rec.assigned_at.isSome)) := by
  refine ⟨?_, fun rec => ⟨rfl, rfl⟩⟩
  intro ch inputs fr hfr
  obtain ⟨r, rfl⟩ := mem_finalExport hfr
  exact ⟨rfl, rfl⟩

/-- Claim C2 counterexample: `c2Raw` has both the queued and the answered
timestamp present, yet its final-export `TakenFromQueue` is false (no
enrichment supplied an assignment reason). -/
theorem c2_counterexample :
    c2Raw.queued_at.isSome = true ∧ c2Raw.assigned_at.isSome = true ∧
    (finalExport "" [(c2Raw, none)]).map FinalRow.TakenFromQueue = [false] := by
  refine ⟨rfl, rfl, ?_⟩
  simp [finalExport, map_row, compute_columns_row, enrichRow, dedupById, dedupByIdAux,
    c2Raw, pyLower]

/-- Witness for C2: the amended statement applied to a concrete export. -/
theorem c2_witness :
    (c2wFr ∈ finalExport "" [(c2wRaw, none)]) ∧
    (c2wFr.TakenFromQueue = (pyLower (c2wFr.assignmentReason.getD "") == "queue") ∧
     c2wFr.TakenFromForward = (pyLower (c2wFr.assignmentReason.getD "") == "forward")) :=
  ⟨by rw [finalExport_singleton]; exact List.mem_singleton.mpr rfl,
   c2_taken_from_reason.1 "" [(c2wRaw, none)] c2wFr
     (by rw [finalExport_singleton]; exact List.mem_singleton.mpr rfl)⟩

/-- Claim C3 (amended): in the final export `RejectedOrForwarded` is true
exactly when the answered timestamp is absent, or `TakenFromForward` is true,
or the lowercased assignment reason equals `"rejected"`. -/
theorem c3_rejected_or_forwarded_final (ch : String) (inputs : List (RawRec × Option Detail))
    (fr : FinalRow) (hfr : fr ∈ finalExport ch inputs) :
    fr.RejectedOrForwarded =
      (fr.answeredAt.isNone || (fr.TakenFromForward ||
        (pyLower (fr.assignmentReason.getD "") == "rejected"))) := by
  obtain ⟨r, rfl⟩ := mem_finalExport hfr
  rfl

/-- Claim C3 counterexample: `c3Raw` enriched with reason `"rejected"` has an
answered timestamp and `TakenFromForward = false`, yet `RejectedOrForwarded`
is true — the claimed equivalence fails on the `"rejected"` reason. -/
theorem c3_counterexample :
    (finalExport "" [(c3Raw, some c3Det)]).map FinalRow.RejectedOrForwarded = [true] ∧
    (finalExport "" [(c3Raw, some c3Det)]).map FinalRow.TakenFromForward = [false] ∧
    (finalExport "" [(c3Raw, some c3Det)]).map (fun fr => fr.answeredAt.isSome) = [true] := by
  have h : pyLower "rejected" = "rejected" := rfl
  refine ⟨?_, ?_, ?_⟩ <;>
    simp [finalExport, map_row, compute_columns_row, enrichRow, applyDetail, dedupById,
      dedupByIdAux, c3Raw, c3Det, h]

/-- Witness for C3: the amended statement applied to a concrete export. -/
theorem c3_witness :
    (c3wFr ∈ finalExport "" [(c3wRaw, none)]) ∧
    (c3wFr.RejectedOrForwarded =
      (c3wFr.answeredAt.isNone || (c3wFr.TakenFromForward ||
        (pyLower (c3wFr.assignmentReason.getD "") == "rejected")))) :=
  ⟨by rw [finalExport_singleton]; exact List.mem_singleton.mpr rfl,
   c3_rejected_or_forwarded_final "" [(c3wRaw, none)] c3wFr
     (by rw [finalExport_singleton]; exact List.mem_singleton.mpr rfl)⟩

/-- Claim C4: in the final export `CallType` is `"queue"` when the lowercased
assignment reason equals `"queue"`, `"forward"` when it equals `"forward"`,
and `"direct"` otherwise, and every record lands in exactly one of the three
buckets. -/
theorem c4_call_type (ch : String) (inputs : List (RawRec × Option Detail)) (fr : FinalRow)
    (hfr : fr ∈ finalExport ch inputs) :
    (fr.CallType = if pyLower (fr.assignmentReason.getD "") = "queue" then "queue"
      else if pyLower (fr.assignmentReason.getD "") = "forward" then "forward"
      else "direct") ∧
    ((fr.CallType = "queue" ∧ fr.CallType ≠ "forward" ∧ fr.CallType ≠ "direct") ∨
     (fr.CallType = "forward" ∧ fr.CallType ≠ "queue" ∧ fr.CallType ≠ "direct") ∨
     (fr.CallType = "direct" ∧ fr.CallType ≠ "queue" ∧ fr.CallType ≠ "forward")) := by
  obtain ⟨r, rfl⟩ := mem_finalExport hfr
  rw [ccr_CallType, ccr_assignmentReason]
  by_cases hq : pyLower (r.assignmentReason.getD "") = "queue"
  · simp [hq]
  · by_cases hf : pyLower (r.assignmentReason.getD "") = "forward"
    · simp [hq, hf]
    · simp [hq, hf]

/-- Witness for C4: the claim applied to a concrete export whose record was
enriched with the mixed-case reason `"Queue"`. -/
theorem c4_witness :
    (c4wFr ∈ finalExport "" [(c4Raw, some c4Det)]) ∧
    ((c4wFr.CallType = if pyLower (c4wFr.assignmentReason.getD "") = "queue" then "queue"
      else if pyLower (c4wFr.assignmentReason.getD "") = "forward" then "forward"
      else "direct") ∧
    ((c4wFr.CallType = "queue" ∧ c4wFr.CallType ≠ "forward" ∧ c4wFr.CallType ≠ "direct") ∨
     (c4wFr.CallType = "forward" ∧ c4wFr.CallType ≠ "queue" ∧ c4wFr.CallType ≠ "direct") ∨
     (c4wFr.CallType = "direct" ∧ c4wFr.CallType ≠ "queue" ∧ c4wFr.CallType ≠ "forward"))) :=
  ⟨by rw [finalExport_singleton]; exact List.mem_singleton.mpr rfl,
   c4_call_type "" [(c4Raw, some c4Det)] c4wFr
     (by rw [finalExport_singleton]; exact List.mem_singleton.mpr rfl)⟩

end Dixa

namespace Dixa

lemma date_windows_go_eq_cons (end_d step cur : ℤ) (h : cur ≤ end_d) (hs : 1 ≤ step) :
    date_windows_go end_d step cur =
      (cur, min end_d (cur + step - 1)) ::
        date_windows_go end_d step (min end_d (cur + step - 1) + 1) := by
  rw [date_windows_go]
  simp [h, hs]

lemma date_windows_go_eq_nil (end_d step cur : ℤ) (h : end_d < cur) :
    date_windows_go end_d step cur = [] := by
  rw [date_windows_go]
  rw [dif_neg (by omega)]

lemma date_windows_go_spec (end_d step : ℤ) (hs : 1 ≤ step) :
    ∀ (n : ℕ) (cur : ℤ), (end_d + 1 - cur).toNat ≤ n → cur ≤ end_d →
      (∀ w ∈ date_windows_go end_d step cur, cur ≤ w.1 ∧ w.1 ≤ w.2 ∧ w.2 ≤ end_d) ∧
      List.Chain' (fun a b : ℤ × ℤ => b.1 = a.2 + 1) (date_windows_go end_d step cur) ∧
      List.Pairwise (fun a b : ℤ × ℤ => a.1 < b.1 ∧ a.2 < b.1) (date_windows_go end_d step cur) ∧
      (∀ d : ℤ, (cur ≤ d ∧ d ≤ end_d) ↔
        ∃ w ∈ date_windows_go end_d step cur, w.1 ≤ d ∧ d ≤ w.2) := by
  intro n
  induction n with
  | zero =>
    intro cur hn hcur
    exfalso
    omega
  | succ n ih =>
    intro cur hn hcur
    have hmin1 : cur ≤ min end_d (cur + step - 1) := le_min hcur (by omega)
    have hmin2 : min end_d (cur + step - 1) ≤ end_d := min_le_left _ _
    rw [date_windows_go_eq_cons end_d step cur hcur hs]
    by_cases hnext : min end_d (cur + step - 1) + 1 ≤ end_d
    · obtain ⟨ihb, ihc, ihp, ihcov⟩ :=
        ih (min end_d (cur + step - 1) + 1) (by omega) hnext
      refine ⟨?_, ?_, ?_, ?_⟩
      · intro w hw
        rcases List.mem_cons.mp hw with rfl | hw
        · exact ⟨le_refl _, hmin1, hmin2⟩
        · obtain ⟨h1, h2, h3⟩ := ihb w hw
          exact ⟨by omega, h2, h3⟩
      · refine List.chain'_cons'.mpr ⟨?_, ihc⟩
        intro y hy
        rw [date_windows_go_eq_cons end_d step _ hnext hs] at hy
        simp only [List.head?_cons, Option.mem_some_iff] at hy
        subst hy
        rfl
      · refine List.pairwise_cons.mpr ⟨?_, ihp⟩
        intro b hb
        obtain ⟨h1, h2, h3⟩ := ihb b hb
        exact ⟨by omega, by omega⟩
      · intro d
        constructor
        · rintro ⟨hd1, hd2⟩
          by_cases hde : d ≤ min end_d (cur + step - 1)
          · exact ⟨(cur, min end_d (cur + step - 1)), List.mem_cons_self _ _, hd1, hde⟩
          · obtain ⟨w, hw, hw1, hw2⟩ := (ihcov d).mp ⟨by omega, hd2⟩
            exact ⟨w, List.mem_cons_of_mem _ hw, hw1, hw2⟩
        · rintro ⟨w, hw, hw1, hw2⟩
          rcases List.mem_cons.mp hw with rfl | hw
          · have hw2b : d ≤ min end_d (cur + step - 1) := hw2
            exact ⟨hw1, by omega⟩
          · obtain ⟨h1, _, h3⟩ := ihb w hw
            exact ⟨by omega, le_trans hw2 h3⟩
    · have hnil : date_windows_go end_d step (min end_d (cur + step - 1) + 1) = [] :=
        date_windows_go_eq_nil _ _ _ (by omega)
      rw [hnil]
      refine ⟨?_, ?_, ?_, ?_⟩
      · intro w hw
        rcases List.mem_cons.mp hw with rfl | hw
        · exact ⟨le_refl _, hmin1, hmin2⟩
        · simp at hw
      · simp
      · simp
      · intro d
        constructor
        · rintro ⟨hd1, hd2⟩
          exact ⟨(cur, min end_d (cur + step - 1)), List.mem_cons_self _ _, hd1, by omega⟩
        · rintro ⟨w, hw, hw1, hw2⟩
          rcases List.mem_cons.mp hw with rfl | hw
          · have hw2b : d ≤ min end_d (cur + step - 1) := hw2
            exact ⟨hw1, by omega⟩
          · simp at hw

/-- Claim C5: the windows tile the inclusive range exactly. -/
theorem c5_date_windows_tile (start_d end_d step : ℤ) (h : start_d ≤ end_d) (hs : 1 ≤ step) :
    (∀ w ∈ date_windows start_d end_d step, w.1 ≤ w.2) ∧
    List.Chain' (fun a b : ℤ × ℤ => b.1 = a.2 + 1) (date_windows start_d end_d step) ∧
    List.Pairwise (fun a b : ℤ × ℤ => a.1 < b.1 ∧ a.2 < b.1) (date_windows start_d end_d step) ∧
    (∀ d : ℤ, (start_d ≤ d ∧ d ≤ end_d) ↔
      ∃ w ∈ date_windows start_d end_d step, w.1 ≤ d ∧ d ≤ w.2) := by
  obtain ⟨hb, hc, hp, hcov⟩ :=
    date_windows_go_spec end_d step hs ((end_d + 1 - start_d).toNat) start_d le_rfl h
  exact ⟨fun w hw => (hb w hw).2.1, hc, hp, hcov⟩

/-- Witness for C5 at range 0..9 with 7-day windows. -/
theorem c5_witness :
    ((0 : ℤ) ≤ 9 ∧ (1 : ℤ) ≤ 7) ∧
    ((∀ w ∈ date_windows 0 9 7, w.1 ≤ w.2) ∧
     List.Chain' (fun a b : ℤ × ℤ => b.1 = a.2 + 1) (date_windows 0 9 7) ∧
     List.Pairwise (fun a b : ℤ × ℤ => a.1 < b.1 ∧ a.2 < b.1) (date_windows 0 9 7) ∧
     (∀ d : ℤ, ((0 : ℤ) ≤ d ∧ d ≤ 9) ↔ ∃ w ∈ date_windows 0 9 7, w.1 ≤ d ∧ d ≤ w.2)) :=
  ⟨⟨by norm_num, by norm_num⟩, c5_date_windows_tile 0 9 7 (by norm_num) (by norm_num)⟩

end Dixa

namespace Dixa

lemma fetch_go_rate_run {α : Type} (base : ℚ) (mr : ℕ) :
    ∀ (k : ℕ) (delay : ℚ) (tries : ℕ) (acc : List ℚ) (rest : List (ExResp α)) (data : List α),
      tries + k < mr →
      fetch_go base mr (List.replicate k (ExResp.rate none) ++ ExResp.ok (some data) :: rest)
          delay tries acc
        = .success (acc.reverse ++ backoffSleeps base k delay) data := by
  intro k
  induction k with
  | zero =>
    intro delay tries acc rest data hlt
    simp [fetch_go, backoffSleeps]
  | succ k ih =>
    intro delay tries acc rest data hlt
    rw [List.replicate_succ, List.cons_append]
    rw [show fetch_go base mr
        (ExResp.rate none :: (List.replicate k (ExResp.rate none) ++ ExResp.ok (some data) :: rest))
        delay tries acc =
      if mr ≤ tries + 1 then .abandoned ((max delay base :: acc)).reverse
      else fetch_go base mr (List.replicate k (ExResp.rate none) ++ ExResp.ok (some data) :: rest)
        (min (delay * (3 / 2)) 60) (tries + 1) (max delay base :: acc) from rfl]
    rw [if_neg (by omega)]
    rw [ih _ (tries + 1) _ rest data (by omega)]
    simp [backoffSleeps, List.append_assoc]

lemma backoffSleeps_length (base : ℚ) : ∀ (k : ℕ) (delay : ℚ),
    (backoffSleeps base k delay).length = k := by
  intro k
  induction k with
  | zero => intro delay; rfl
  | succ k ih => intro delay; simp [backoffSleeps, ih]

lemma backoffSleeps_props (base : ℚ) (h0 : 0 ≤ base) :
    ∀ (k : ℕ) (delay : ℚ), base ≤ delay → delay ≤ 60 →
      (∀ d ∈ backoffSleeps base k delay, delay ≤ d ∧ base ≤ d ∧ d ≤ 60) ∧
      List.Chain' (fun a b : ℚ => a ≤ b) (backoffSleeps base k delay) := by
  intro k
  induction k with
  | zero => intro delay hbd hd60; exact ⟨by simp [backoffSleeps], by simp [backoffSleeps]⟩
  | succ k ih =>
    intro delay hbd hd60
    have hd0 : 0 ≤ delay := le_trans h0 hbd
    have hgrow : delay ≤ delay * (3 / 2) := by nlinarith
    have hb2 : base ≤ min (delay * (3 / 2)) 60 := le_min (le_trans hbd hgrow) (le_trans hbd hd60)
    have hd2 : delay ≤ min (delay * (3 / 2)) 60 := le_min hgrow hd60
    have h260 : min (delay * (3 / 2)) 60 ≤ 60 := min_le_right _ _
    obtain ⟨ihm, ihc⟩ := ih (min (delay * (3 / 2)) 60) hb2 h260
    have hmax : max delay base = delay := max_eq_left hbd
    constructor
    · intro d hd
      rw [backoffSleeps, hmax] at hd
      rcases List.mem_cons.mp hd with rfl | hd
      · exact ⟨le_refl _, hbd, hd60⟩
      · obtain ⟨hm1, hm2, hm3⟩ := ihm d hd
        exact ⟨le_trans hd2 hm1, hm2, hm3⟩
    · rw [backoffSleeps, hmax]
      refine List.chain'_cons'.mpr ⟨?_, ihc⟩
      intro y hy
      have hmem : y ∈ backoffSleeps base k (min (delay * (3 / 2)) 60) :=
        List.mem_of_mem_head? hy
      exact le_trans hd2 (ihm y hmem).1

lemma fetch_go_rate_abandon {α : Type} (base : ℚ) (mr : ℕ) :
    ∀ (k : ℕ) (delay : ℚ) (tries : ℕ) (acc : List ℚ) (rest : List (ExResp α)),
      tries + k = mr → 1 ≤ k →
      fetch_go base mr (List.replicate k (ExResp.rate none) ++ rest) delay tries acc
        = .abandoned (acc.reverse ++ backoffSleeps base k delay) := by
  intro k
  induction k with
  | zero =>
    intro delay tries acc rest heq hk
    exact absurd hk (by omega)
  | succ k ih =>
    intro delay tries acc rest heq hk
    rw [List.replicate_succ, List.cons_append]
    rw [show fetch_go base mr
        (ExResp.rate none :: (List.replicate k (ExResp.rate none) ++ rest)) delay tries acc =
      if mr ≤ tries + 1 then .abandoned ((max delay base :: acc)).reverse
      else fetch_go base mr (List.replicate k (ExResp.rate none) ++ rest)
        (min (delay * (3 / 2)) 60) (tries + 1) (max delay base :: acc) from rfl]
    rcases Nat.eq_zero_or_pos k with hk0 | hkpos
    · subst hk0
      rw [if_pos (by omega)]
      simp [backoffSleeps]
    · rw [if_neg (by omega)]
      rw [ih _ (tries + 1) _ rest (by omega) hkpos]
      simp [backoffSleeps, List.append_assoc]

end Dixa

namespace Dixa

/-- Claim C6 (amended): with a base delay in [0, 60], a window fetch hitting k
consecutive 429 responses without Retry-After (k below the 6-attempt cap)
followed by a 200 sleeps exactly k times with non-decreasing delays, each at
least the base delay and at most 60 s, then returns the parsed body; six 429
responses abandon the window, returning zero records without raising; a parsed
Retry-After value is used as the wait time after flooring it at the base
delay. -/
theorem c6_retry_backoff (base : ℚ) (h0 : 0 ≤ base) (h60 : base ≤ 60) :
    (∀ k : ℕ, k < 6 → ∀ (data : List ℤ) (rest : List (ExResp ℤ)),
      ∃ sleeps : List ℚ,
        fetch_exports_window base 6
            (List.replicate k (ExResp.rate none) ++ ExResp.ok (some data) :: rest)
          = FetchResult.success sleeps data ∧
        sleeps.length = k ∧ List.Chain' (fun a b : ℚ => a ≤ b) sleeps ∧
        ∀ d ∈ sleeps, base ≤ d ∧ d ≤ 60) ∧
    (∀ rest : List (ExResp ℤ),
      ∃ sleeps : List ℚ,
        fetch_exports_window base 6 (List.replicate 6 (ExResp.rate none) ++ rest)
          = FetchResult.abandoned sleeps ∧
        (FetchResult.abandoned (α := ℤ) sleeps).returned = some []) ∧
    (∀ (v : ℚ) (data : List ℤ),
      fetch_exports_window base 6 [ExResp.rate (some (some v)), ExResp.ok (some data)]
        = FetchResult.success [max v base] data) := by
  refine ⟨?_, ?_, ?_⟩
  · intro k hk data rest
    refine ⟨backoffSleeps base k base, ?_, backoffSleeps_length base k base, ?_, ?_⟩
    · have h := fetch_go_rate_run (α := ℤ) base 6 k base 0 [] rest data (by omega)
      simpa [fetch_exports_window] using h
    · exact (backoffSleeps_props base h0 k base le_rfl h60).2
    · intro d hd
      obtain ⟨_, h2, h3⟩ := (backoffSleeps_props base h0 k base le_rfl h60).1 d hd
      exact ⟨h2, h3⟩
  · intro rest
    refine ⟨backoffSleeps base 6 base, ?_, rfl⟩
    have h := fetch_go_rate_abandon (α := ℤ) base 6 6 base 0 [] rest (by omega) (by omega)
    simpa [fetch_exports_window] using h
  · intro v data
    show fetch_go base 6 [ExResp.rate (some (some v)), ExResp.ok (some data)] base 0 []
      = FetchResult.success [max v base] data
    rw [show fetch_go base 6 [ExResp.rate (some (some v)), ExResp.ok (some data)] base 0 [] =
      if 6 ≤ 0 + 1 then FetchResult.abandoned ([max v base]).reverse
      else fetch_go base 6 [ExResp.ok (some data)] (min (base * (3 / 2)) 60) 1 [max v base]
      from rfl]
    rw [if_neg (by omega)]
    rfl

/-- Claim C6 counterexample: a 429 carrying Retry-After 3 with base delay 7.5
sleeps 7.5 s, not the 3 s the header requested — the header value is not used
as the wait time when it lies below the configured base delay. -/
theorem c6_counterexample :
    fetch_exports_window (15 / 2 : ℚ) 6
        [ExResp.rate (some (some 3)), ExResp.ok (some ([] : List ℤ))]
      = FetchResult.success [15 / 2] [] ∧ (15 / 2 : ℚ) ≠ 3 := by
  constructor
  · simp [fetch_exports_window, fetch_go]
    norm_num
  · norm_num

/-- Witness for C6: the amended statement at the default base delay 7.5. -/
theorem c6_witness :
    ((0 : ℚ) ≤ 15 / 2 ∧ (15 / 2 : ℚ) ≤ 60) ∧
    ((∀ k : ℕ, k < 6 → ∀ (data : List ℤ) (rest : List (ExResp ℤ)),
      ∃ sleeps : List ℚ,
        fetch_exports_window (15 / 2 : ℚ) 6
            (List.replicate k (ExResp.rate none) ++ ExResp.ok (some data) :: rest)
          = FetchResult.success sleeps data ∧
        sleeps.length = k ∧ List.Chain' (fun a b : ℚ => a ≤ b) sleeps ∧
        ∀ d ∈ sleeps, (15 / 2 : ℚ) ≤ d ∧ d ≤ 60) ∧
    (∀ rest : List (ExResp ℤ),
      ∃ sleeps : List ℚ,
        fetch_exports_window (15 / 2 : ℚ) 6 (List.replicate 6 (ExResp.rate none) ++ rest)
          = FetchResult.abandoned sleeps ∧
        (FetchResult.abandoned (α := ℤ) sleeps).returned = some []) ∧
    (∀ (v : ℚ) (data : List ℤ),
      fetch_exports_window (15 / 2 : ℚ) 6 [ExResp.rate (some (some v)), ExResp.ok (some data)]
        = FetchResult.success [max v (15 / 2 : ℚ)] data)) :=
  ⟨⟨by norm_num, by norm_num⟩, c6_retry_backoff (15 / 2) (by norm_num) (by norm_num)⟩

/-- Claim C8 (amended): a connection or timeout error while fetching a window
is not retried at all: `requests.get` is called outside any try block, so the
exception propagates immediately as a terminal failure (caught only by the
top-level guard, which exits the run). -/
theorem c8_conn_error_no_retry :
    (∀ (base : ℚ) (mr : ℕ) (rest : List (ExResp ℤ)) (delay : ℚ) (tries : ℕ) (acc : List ℚ),
      fetch_go base mr (ExResp.exc :: rest) delay tries acc
        = FetchResult.connError acc.reverse) ∧
    (∀ (base : ℚ) (mr : ℕ) (rest : List (ExResp ℤ)),
      fetch_exports_window base mr (ExResp.exc :: rest) = FetchResult.connError [] ∧
      (fetch_exports_window base mr (ExResp.exc :: rest)).returned = none) :=
  ⟨fun _ _ _ _ _ _ => rfl, fun _ _ _ => ⟨rfl, rfl⟩⟩

/-- Claim C8 counterexample: a single connection error followed by an
available 200 response terminates the fetch with a propagating error and no
retry, contradicting the claimed 3-attempt retry. -/
theorem c8_counterexample :
    fetch_exports_window (15 / 2 : ℚ) 6 [ExResp.exc, ExResp.ok (some ([42] : List ℤ))]
      = FetchResult.connError [] ∧
    (fetch_exports_window (15 / 2 : ℚ) 6
        [ExResp.exc, ExResp.ok (some ([42] : List ℤ))]).returned = none :=
  ⟨rfl, rfl⟩

end Dixa

namespace Dixa

lemma dedupByIdAux_sublist : ∀ (seen : List (Option String)) (l : List Row),
    (dedupByIdAux seen l).Sublist l := by
  intro seen l
  induction l generalizing seen with
  | nil => simp [dedupByIdAux]
  | cons r rest ih =>
    rw [dedupByIdAux]
    by_cases h : r.id ∈ seen
    · rw [if_pos h]
      exact (ih seen).cons r
    · rw [if_neg h]
      exact (ih (r.id :: seen)).cons₂ r

lemma dedupByIdAux_id_not_seen : ∀ (seen : List (Option String)) (l : List Row) (r : Row),
    r ∈ dedupByIdAux seen l → r.id ∉ seen := by
  intro seen l
  induction l generalizing seen with
  | nil => intro r h; simp [dedupByIdAux] at h
  | cons x rest ih =>
    intro r h
    rw [dedupByIdAux] at h
    by_cases hx : x.id ∈ seen
    · rw [if_pos hx] at h
      exact ih seen r h
    · rw [if_neg hx] at h
      rcases List.mem_cons.mp h with rfl | h
      · exact hx
      · have h2 := ih (x.id :: seen) r h
        intro hc
        exact h2 (List.mem_cons_of_mem _ hc)

lemma dedupByIdAux_ids_nodup : ∀ (seen : List (Option String)) (l : List Row),
    ((dedupByIdAux seen l).map Row.id).Nodup := by
  intro seen l
  induction l generalizing seen with
  | nil => simp [dedupByIdAux]
  | cons x rest ih =>
    rw [dedupByIdAux]
    by_cases hx : x.id ∈ seen
    · rw [if_pos hx]
      exact ih seen
    · rw [if_neg hx, List.map_cons]
      refine List.nodup_cons.mpr ⟨?_, ih (x.id :: seen)⟩
      intro hc
      obtain ⟨r, hr, hrid⟩ := List.mem_map.mp hc
      have h2 := dedupByIdAux_id_not_seen _ _ _ hr
      exact h2 (by rw [hrid]; exact List.mem_cons_self _ _)

lemma dedupByIdAux_first : ∀ (seen : List (Option String)) (l : List Row) (r : Row),
    r ∈ dedupByIdAux seen l → l.find? (fun x => x.id == r.id) = some r := by
  intro seen l
  induction l generalizing seen with
  | nil => intro r h; simp [dedupByIdAux] at h
  | cons x rest ih =>
    intro r h
    rw [dedupByIdAux] at h
    by_cases hx : x.id ∈ seen
    · rw [if_pos hx] at h
      have hr_not : r.id ∉ seen := dedupByIdAux_id_not_seen _ _ _ h
      have hne : ¬((fun y : Row => y.id == r.id) x = true) := by
        simp only [beq_iff_eq]
        intro he
        exact hr_not (he ▸ hx)
      rw [@List.find?_cons_of_neg Row (fun y : Row => y.id == r.id) x rest hne]
      exact ih seen r h
    · rw [if_neg hx] at h
      rcases List.mem_cons.mp h with rfl | h
      · exact @List.find?_cons_of_pos Row (fun y : Row => y.id == r.id) r rest (by simp)
      · have hr_not : r.id ∉ x.id :: seen := dedupByIdAux_id_not_seen _ _ _ h
        have hne : ¬((fun y : Row => y.id == r.id) x = true) := by
          simp only [beq_iff_eq]
          intro he
          exact hr_not (he ▸ List.mem_cons_self _ _)
        rw [@List.find?_cons_of_neg Row (fun y : Row => y.id == r.id) x rest hne]
        exact ih (x.id :: seen) r h

lemma dedupByIdAux_complete : ∀ (seen : List (Option String)) (l : List Row) (r : Row),
    r ∈ l → r.id ∈ seen ∨ ∃ r2 ∈ dedupByIdAux seen l, r2.id = r.id := by
  intro seen l
  induction l generalizing seen with
  | nil => intro r h; simp at h
  | cons x rest ih =>
    intro r h
    rw [dedupByIdAux]
    by_cases hx : x.id ∈ seen
    · rw [if_pos hx]
      rcases List.mem_cons.mp h with rfl | h
      · exact Or.inl hx
      · exact ih seen r h
    · rw [if_neg hx]
      rcases List.mem_cons.mp h with rfl | h
      · exact Or.inr ⟨r, List.mem_cons_self _ _, rfl⟩
      · rcases ih (x.id :: seen) r h with hmem | ⟨r2, hr2, hid⟩
        · rcases List.mem_cons.mp hmem with heq | hmem
          · exact Or.inr ⟨x, List.mem_cons_self _ _, heq.symm⟩
          · exact Or.inl hmem
        · exact Or.inr ⟨r2, List.mem_cons_of_mem _ hr2, hid⟩

lemma dedupByIdAux_of_nodup : ∀ (seen : List (Option String)) (l : List Row),
    (∀ x ∈ l, x.id ∉ seen) → (l.map Row.id).Nodup → dedupByIdAux seen l = l := by
  intro seen l
  induction l generalizing seen with
  | nil => intro _ _; rfl
  | cons x rest ih =>
    intro hseen hnodup
    rw [List.map_cons, List.nodup_cons] at hnodup
    rw [dedupByIdAux, if_neg (hseen x (List.mem_cons_self _ _))]
    congr 1
    apply ih
    · intro y hy hc
      rcases List.mem_cons.mp hc with heq | hc2
      · exact hnodup.1 (heq ▸ List.mem_map_of_mem Row.id hy)
      · exact hseen y (List.mem_cons_of_mem _ hy) hc2
    · exact hnodup.2

lemma dedupById_idem (l : List Row) : dedupById (dedupById l) = dedupById l := by
  apply dedupByIdAux_of_nodup
  · intro x _
    simp
  · exact dedupByIdAux_ids_nodup [] l

/-- Claim C7: deduplication keeps exactly one row per id (output ids are
pairwise distinct and every input id survives), retains the first occurrence
in stable input order (the output is a sublist of the input and every kept row
is the first the input `find?` locates for its id), reports `before - after`
as the removed count, and is idempotent: a second pass removes nothing. -/
theorem c7_dedup_first_seen :
    (∀ l : List Row, ((dedupById l).map Row.id).Nodup) ∧
    (∀ l : List Row, (dedupById l).Sublist l) ∧
    (∀ (l : List Row) (r : Row), r ∈ dedupById l →
      l.find? (fun x => x.id == r.id) = some r) ∧
    (∀ (l : List Row) (r : Row), r ∈ l → ∃ r2 ∈ dedupById l, r2.id = r.id) ∧
    (∀ l : List Row, dedupById (dedupById l) = dedupById l) ∧
    (∀ l : List Row, dedupRemoved l = l.length - (dedupById l).length ∧
      dedupRemoved (dedupById l) = 0) := by
  refine ⟨fun l => dedupByIdAux_ids_nodup [] l,
    fun l => dedupByIdAux_sublist [] l,
    fun l r h => dedupByIdAux_first [] l r h,
    fun l r h => ?_,
    dedupById_idem,
    fun l => ⟨rfl, ?_⟩⟩
  · rcases dedupByIdAux_complete [] l r h with hmem | hex
    · simp at hmem
    · exact hex
  · rw [dedupRemoved, dedupById_idem]
    omega

/-- Witness for C7: first-occurrence retention on a concrete two-row set. -/
theorem c7_witness :
    (c7RowA ∈ dedupById [c7RowA, c7RowB]) ∧
    ([c7RowA, c7RowB].find? (fun x => x.id == c7RowA.id) = some c7RowA) :=
  ⟨by rw [show dedupById [c7RowA, c7RowB] = [c7RowA, c7RowB] from rfl]
      exact List.mem_cons_self _ _,
   c7_dedup_first_seen.2.2.1 [c7RowA, c7RowB] c7RowA
     (by rw [show dedupById [c7RowA, c7RowB] = [c7RowA, c7RowB] from rfl]
         exact List.mem_cons_self _ _)⟩

/-- Claim C9: the detail lookup returns `none` on any non-200 status, any
malformed body and any request exception — the embedding is a total function,
matching the source where every fallible step sits inside `try/except` —
and a record whose enrichment is absent passes through unchanged. -/
theorem c9_fetch_detail_best_effort :
    (∀ (status : ℕ) (body : Option (Option Detail)), status ≠ 200 →
      fetch_detail (DetailOutcome.resp status body) = none) ∧
    (∀ status : ℕ, fetch_detail (DetailOutcome.resp status none) = none) ∧
    fetch_detail DetailOutcome.exc = none ∧
    (∀ r : Row, enrichRow r none = r) := by
  refine ⟨?_, ?_, rfl, enrichRow_none⟩
  · intro status body h
    simp [fetch_detail, h]
  · intro status
    by_cases h : status = 200 <;> simp [fetch_detail, h]

/-- Witness for C9: a 404 response yields no enrichment. -/
theorem c9_witness :
    ((404 : ℕ) ≠ 200) ∧
    fetch_detail (DetailOutcome.resp 404 (some (some ({ } : Detail)))) = none :=
  ⟨by norm_num,
   c9_fetch_detail_best_effort.1 404 (some (some ({ } : Detail))) (by norm_num)⟩

end Dixa

/-- Claim C10: in the previous-month exporter a zero `created_at` or
`assigned_at` millisecond timestamp makes `answered_within_1min` false by
truthiness even though both timestamps are present, while the same timestamps
still count as present for `taken_from_queue` and `taken_from_forward`,
which test `is not None`. -/
theorem c10_truthiness_asymmetry (c a q : Option ℤ)
    (hc : c.isSome = true) (ha : a.isSome = true) (hzero : c = some 0 ∨ a = some 0) :
    (PrevMonth.calculate_metrics_from_ms c a q).answered_within_1min = false ∧
    (PrevMonth.calculate_metrics_from_ms c a q).taken_from_queue = q.isSome ∧
    (PrevMonth.calculate_metrics_from_ms c a q).taken_from_forward = q.isNone := by
  refine ⟨?_, ?_, ?_⟩
  · rcases hzero with rfl | rfl <;>
      simp [PrevMonth.calculate_metrics_from_ms, PrevMonth.truthyMs]
  · simp [PrevMonth.calculate_metrics_from_ms, ha]
  · simp [PrevMonth.calculate_metrics_from_ms, ha]

/-- Witness for C10: a record created at epoch 0 and answered 30 s later is
not counted as answered within one minute, yet still counts as taken from the
queue. -/
theorem c10_witness :
    ((some 0 : Option ℤ).isSome = true ∧ (some 30000 : Option ℤ).isSome = true ∧
      ((some 0 : Option ℤ) = some 0 ∨ (some 30000 : Option ℤ) = some 0)) ∧
    ((PrevMonth.calculate_metrics_from_ms (some 0) (some 30000) (some 1)).answered_within_1min
        = false ∧
     (PrevMonth.calculate_metrics_from_ms (some 0) (some 30000) (some 1)).taken_from_queue
        = (some 1 : Option ℤ).isSome ∧
     (PrevMonth.calculate_metrics_from_ms (some 0) (some 30000) (some 1)).taken_from_forward
        = (some 1 : Option ℤ).isNone) :=
  ⟨⟨rfl, rfl, Or.inl rfl⟩,
   c10_truthiness_asymmetry (some 0) (some 30000) (some 1) rfl rfl (Or.inl rfl)⟩
